import Mathlib

/-!
Verification of the whatawhat storage engine and aggregation pipeline.

Shallow embedding conventions:
* `DateTime<Utc>` instants and `chrono::Duration` spans are embedded as `Int`
  counted in seconds (every quantity the verified claims touch is a whole
  number of seconds; `MAX_MERGE_DURATION` is 2 seconds).
* `Arc<str>` is embedded as `String`.
* Record files are embedded as `List Char` (one `Char` per byte; the verified
  inputs are ASCII) on the write path, and as the list of their lines on the
  read path (line splitting is performed by the standard library's
  `BufReader::lines`, outside this repository's code).
-/

set_option maxRecDepth 100000

namespace Whatawhat

/-! ## Interval model (src/daemon/storage/entities.rs) -/

/-- Embeds `UsageIntervalEntity`: the struct stored on disk. -/
structure UsageIntervalEntity where
  window_name : String
  process_name : String
  start : Int
  duration : Int
  afk : Bool
deriving DecidableEq, Repr

/-- Embeds `UsageRecordEntity`: an activity record at a point in time. -/
structure UsageRecordEntity where
  window_name : String
  process_name : String
  moment : Int
  afk : Bool
deriving DecidableEq, Repr

/-- Embeds `UsageIntervalEntity::end`: `start + duration`. -/
def UsageIntervalEntity.endTime (e : UsageIntervalEntity) : Int :=
  e.start + e.duration

/-- Embeds `UsageIntervalEntity::set_end`: `duration = v - start`. -/
def UsageIntervalEntity.set_end (e : UsageIntervalEntity) (v : Int) : UsageIntervalEntity :=
  { e with duration := v - e.start }

/-- Embeds `UsageIntervalEntity::split_by`. -/
def UsageIntervalEntity.split_by (e : UsageIntervalEntity) (split : Int) :
    Option UsageIntervalEntity × Option UsageIntervalEntity :=
  let endv := e.endTime
  if split < e.start then
    (none, some e)
  else if split ≥ endv then
    (some e, none)
  else
    (some { window_name := e.window_name
            process_name := e.process_name
            start := e.start
            duration := split - e.start
            afk := e.afk },
     some { window_name := e.window_name
            process_name := e.process_name
            start := split
            duration := endv - split
            afk := e.afk })

/-- Embeds `UsageIntervalEntity::clamp`:
`self.split_by(from).1.and_then(|v| v.split_by(to).0)`. -/
def UsageIntervalEntity.clamp (e : UsageIntervalEntity) (f t : Int) :
    Option UsageIntervalEntity :=
  (e.split_by f).2.bind (fun v => (v.split_by t).1)

/-- Embeds `From<UsageRecordEntity> for UsageIntervalEntity`:
a zero-duration interval seeded at the record's moment. -/
def UsageRecordEntity.toInterval (r : UsageRecordEntity) : UsageIntervalEntity :=
  { window_name := r.window_name
    process_name := r.process_name
    start := r.moment
    duration := 0
    afk := r.afk }

/-! ## Collapse engine (src/daemon/storage/record_storage.rs) -/

/-- Embeds `MAX_MERGE_DURATION`: 2 seconds, bridging window-transition gaps. -/
def MAX_MERGE_DURATION : Int := 2

/-- Loop body of `collapse_records`.  The source mutates the last element of a
`Vec`; this embedding splits the vector into the already-settled prefix
`done` and the mutable last element `last` (`Vec = done ++ last.toList`). -/
def collapseGo (done : List UsageIntervalEntity) (last : Option UsageIntervalEntity) :
    List UsageRecordEntity → List UsageIntervalEntity
  | [] => done ++ last.toList
  | record :: rest =>
    match last with
    | some interval =>
      if interval.window_name = record.window_name
          ∧ interval.process_name = record.process_name
          ∧ interval.afk = record.afk
          ∧ record.moment - interval.endTime < MAX_MERGE_DURATION then
        collapseGo done (some (interval.set_end record.moment)) rest
      else if record.moment - interval.endTime < MAX_MERGE_DURATION then
        collapseGo (done ++ [interval])
          (some { record.toInterval with start := interval.endTime }) rest
      else
        collapseGo (done ++ [interval]) (some record.toInterval) rest
    | none => collapseGo done (some record.toInterval) rest

/-- Embeds `collapse_records`: creates an optimal sequence of intervals from an
optional carried last interval and the incoming usage records. -/
def collapse_records (last_interval : Option UsageIntervalEntity)
    (usage_records : List UsageRecordEntity) : List UsageIntervalEntity :=
  collapseGo [] last_interval usage_records

example :
    collapse_records none
      [⟨"w", "p", 0, false⟩, ⟨"w", "p", 1, false⟩, ⟨"x", "q", 5, false⟩] =
      [⟨"w", "p", 0, 1, false⟩, ⟨"x", "q", 5, 0, false⟩] := by decide

example :
    collapse_records (some ⟨"t", "tp", 0, 10, false⟩) [⟨"t", "tp", 15, false⟩] =
      [⟨"t", "tp", 0, 10, false⟩, ⟨"t", "tp", 15, 0, false⟩] := by decide

example :
    collapse_records none
      [⟨"prev", "pp", 0, false⟩, ⟨"t2", "p2", 3, false⟩, ⟨"t2", "p2", 4, false⟩] =
      [⟨"prev", "pp", 0, 0, false⟩, ⟨"t2", "p2", 3, 1, false⟩] := by decide

/-! ## Claim C2: two matching samples collapse into one interval -/

/-- C2 counterexample: two Samples with identical `(window_name, process_name,
afk)` and `t1 = 0 < 5 = t2`, no carried interval, yield TWO intervals, not
one: the merge in `collapse_records` additionally requires the gap
`t2 - t1 < MAX_MERGE_DURATION` (2 s). -/
theorem c2_counterexample :
    (let s1 : UsageRecordEntity := ⟨"w", "p", 0, false⟩
     let s2 : UsageRecordEntity := ⟨"w", "p", 5, false⟩
     s1.window_name = s2.window_name ∧ s1.process_name = s2.process_name ∧
       s1.afk = s2.afk ∧ s1.moment < s2.moment ∧
       (collapse_records none [s1, s2]).length ≠ 1) := by decide

/-- C2 (amended): for two Samples with identical `(window_name, process_name,
afk)`, timestamps `t1 < t2` AND `t2 - t1 < MAX_MERGE_DURATION`, the collapse
engine with no carried interval yields exactly one interval with start `t1`
and end `t2`. -/
theorem c2_amended (w p : String) (k : Bool) (t1 t2 : Int)
    (h1 : t1 < t2) (h2 : t2 - t1 < MAX_MERGE_DURATION) :
    collapse_records none [⟨w, p, t1, k⟩, ⟨w, p, t2, k⟩] =
      [⟨w, p, t1, t2 - t1, k⟩] := by
  have h2' : t2 - t1 < (2 : Int) := h2
  dsimp only [collapse_records, collapseGo, UsageRecordEntity.toInterval,
    UsageIntervalEntity.set_end, UsageIntervalEntity.endTime, MAX_MERGE_DURATION]
  rw [if_pos ⟨rfl, rfl, rfl, by omega⟩]
  dsimp only [collapseGo, Option.toList]
  simp

/-- Witness for C2 (amended) at `t1 = 0`, `t2 = 1`. -/
theorem c2_amended_witness :
    collapse_records none [⟨"w", "p", 0, false⟩, ⟨"w", "p", 1, false⟩] =
      [⟨"w", "p", 0, 1, false⟩] :=
  c2_amended "w" "p" false 0 1 (by decide) (by decide)

/-! ## Claim C3: split_by partitions an interval -/

/-- C3: `split_by t` returns `(none, some self)` when `t < start`,
`(some self, none)` when `t ≥ end`, and otherwise two intervals sharing the
non-time fields, covering `[start, t)` and `[t, end)`, with durations summing
to the original and `before.end = after.start = t`. -/
theorem c3_split_by (e : UsageIntervalEntity) (t : Int) (hd : 0 ≤ e.duration) :
    (t < e.start → e.split_by t = (none, some e)) ∧
    (e.endTime ≤ t → e.split_by t = (some e, none)) ∧
    (e.start ≤ t → t < e.endTime →
      ∃ b a, e.split_by t = (some b, some a) ∧
        b.window_name = e.window_name ∧ b.process_name = e.process_name ∧
        b.afk = e.afk ∧
        a.window_name = e.window_name ∧ a.process_name = e.process_name ∧
        a.afk = e.afk ∧
        b.start = e.start ∧ b.endTime = t ∧ a.start = t ∧ a.endTime = e.endTime ∧
        b.duration + a.duration = e.duration) := by
  obtain ⟨w, p, s, d, k⟩ := e
  dsimp only [UsageIntervalEntity.split_by, UsageIntervalEntity.endTime] at *
  refine ⟨fun h => ?_, fun h => ?_, fun h1 h2 => ?_⟩
  · rw [if_pos h]
  · rw [if_neg (by omega), if_pos (by omega)]
  · rw [if_neg (by omega), if_neg (by omega)]
    refine ⟨_, _, rfl, ?_, ?_, ?_, ?_, ?_, ?_, ?_, ?_, ?_, ?_, ?_⟩ <;> simp

/-- Witness for C3 at the interval `[0, 10)` split at `t = 4`. -/
theorem c3_split_by_witness :
    (0 : Int) ≤ (⟨"w", "p", 0, 10, false⟩ : UsageIntervalEntity).duration ∧
    ((4 : Int) < (⟨"w", "p", 0, 10, false⟩ : UsageIntervalEntity).start →
      (⟨"w", "p", 0, 10, false⟩ : UsageIntervalEntity).split_by 4 =
        (none, some ⟨"w", "p", 0, 10, false⟩)) ∧
    ((⟨"w", "p", 0, 10, false⟩ : UsageIntervalEntity).endTime ≤ 4 →
      (⟨"w", "p", 0, 10, false⟩ : UsageIntervalEntity).split_by 4 =
        (some ⟨"w", "p", 0, 10, false⟩, none)) ∧
    ((⟨"w", "p", 0, 10, false⟩ : UsageIntervalEntity).start ≤ 4 →
      (4 : Int) < (⟨"w", "p", 0, 10, false⟩ : UsageIntervalEntity).endTime →
      ∃ b a, (⟨"w", "p", 0, 10, false⟩ : UsageIntervalEntity).split_by 4 =
          (some b, some a) ∧
        b.window_name = "w" ∧ b.process_name = "p" ∧ b.afk = false ∧
        a.window_name = "w" ∧ a.process_name = "p" ∧ a.afk = false ∧
        b.start = 0 ∧ b.endTime = 4 ∧ a.start = 4 ∧
        a.endTime = (⟨"w", "p", 0, 10, false⟩ : UsageIntervalEntity).endTime ∧
        b.duration + a.duration = 10) :=
  ⟨by decide, c3_split_by ⟨"w", "p", 0, 10, false⟩ 4 (by decide)⟩

/-! ## Claim C4: clamp = split composition, None exactly off-range -/

/-- C4 counterexample: the interval `[10, 15)` lies entirely outside
`[0, 10)` (its start equals `to`), yet `clamp 0 10` returns
`some` (a zero-duration interval at 10), not `None`. -/
theorem c4_counterexample :
    (let e : UsageIntervalEntity := ⟨"w", "p", 10, 5, false⟩
     ((10 : Int) ≤ e.start ∨ e.endTime ≤ 0) ∧ e.clamp 0 10 ≠ none) := by decide

/-- C4 (amended): `clamp f t` is definitionally
`split_by(f).after.and_then(split_by(t).before)`; for `f ≤ t` and positive
duration it returns `none` exactly when `end ≤ f` or `t < start` — an interval
whose start equals `t`, though entirely outside `[f, t)`, is kept as a
zero-duration interval rather than dropped — and an interval fully inside
`[f, t)` is returned unchanged. -/
theorem c4_amended (e : UsageIntervalEntity) (f t : Int) :
    (e.clamp f t = (e.split_by f).2.bind (fun v => (v.split_by t).1)) ∧
    (0 < e.duration → f ≤ t →
      ((e.clamp f t = none ↔ (e.endTime ≤ f ∨ t < e.start)) ∧
       (f ≤ e.start → e.endTime ≤ t → e.clamp f t = some e))) := by
  obtain ⟨w, p, s, d, k⟩ := e
  refine ⟨rfl, fun hd hft => ⟨?_, fun h1 h2 => ?_⟩⟩ <;>
    dsimp only [UsageIntervalEntity.clamp, UsageIntervalEntity.split_by,
      UsageIntervalEntity.endTime, Option.bind] at *
  · split_ifs <;> (try simp_all) <;> (try split_ifs) <;> (try simp_all) <;> omega
  · split_ifs <;> (try simp_all) <;> (try split_ifs) <;> (try simp_all) <;> omega

/-- Witness for C4 (amended): `[5, 15)` clamped to `[0, 20)` is unchanged,
and `[5, 15)` clamped to `[20, 30)` is `none`. -/
theorem c4_amended_witness :
    ((⟨"w", "p", 5, 10, false⟩ : UsageIntervalEntity).clamp 0 20 =
      some ⟨"w", "p", 5, 10, false⟩) ∧
    ((⟨"w", "p", 5, 10, false⟩ : UsageIntervalEntity).clamp 20 30 = none) :=
  ⟨((c4_amended ⟨"w", "p", 5, 10, false⟩ 0 20).2 (by decide) (by decide)).2
      (by decide) (by decide),
   ((c4_amended ⟨"w", "p", 5, 10, false⟩ 20 30).2 (by decide) (by decide)).1.mpr
      (by decide)⟩

/-! ## Claim C10: clamp on zero-duration intervals -/

/-- C10: a zero-duration interval at `s` survives `clamp f t` unchanged
exactly when `f < s ∧ s ≤ t`, and is dropped otherwise: sitting exactly at
`f` it is dropped, sitting exactly at `t` it is kept — the opposite boundary
treatment from the half-open `[f, t)` convention. -/
theorem c10_zero_duration_clamp (e : UsageIntervalEntity) (hd : e.duration = 0)
    (f t : Int) :
    e.clamp f t = if f < e.start ∧ e.start ≤ t then some e else none := by
  obtain ⟨w, p, s, d, k⟩ := e
  dsimp only at hd
  subst hd
  by_cases hf : f < s <;> by_cases ht : s ≤ t
  · rw [if_pos ⟨hf, ht⟩]
    dsimp only [UsageIntervalEntity.clamp, UsageIntervalEntity.split_by,
      UsageIntervalEntity.endTime, Option.bind]
    rw [if_pos hf]
    dsimp only
    rw [if_neg (by omega), if_pos (by omega)]
  · rw [if_neg (fun hc => ht hc.2)]
    dsimp only [UsageIntervalEntity.clamp, UsageIntervalEntity.split_by,
      UsageIntervalEntity.endTime, Option.bind]
    rw [if_pos hf]
    dsimp only
    rw [if_pos (by omega)]
  · rw [if_neg (fun hc => hf hc.1)]
    dsimp only [UsageIntervalEntity.clamp, UsageIntervalEntity.split_by,
      UsageIntervalEntity.endTime, Option.bind]
    rw [if_neg hf, if_pos (by omega)]
  · rw [if_neg (fun hc => hf hc.1)]
    dsimp only [UsageIntervalEntity.clamp, UsageIntervalEntity.split_by,
      UsageIntervalEntity.endTime, Option.bind]
    rw [if_neg hf, if_pos (by omega)]

/-- Witness for C10: the zero-duration interval at 5 is kept by `clamp 4 5`
(it sits exactly at `to`) and dropped by `clamp 5 9` (exactly at `from`). -/
theorem c10_zero_duration_clamp_witness :
    ((⟨"w", "p", 5, 0, false⟩ : UsageIntervalEntity).clamp 4 5 =
      some ⟨"w", "p", 5, 0, false⟩) ∧
    ((⟨"w", "p", 5, 0, false⟩ : UsageIntervalEntity).clamp 5 9 = none) :=
  ⟨by rw [c10_zero_duration_clamp ⟨"w", "p", 5, 0, false⟩ rfl 4 5]; decide,
   by rw [c10_zero_duration_clamp ⟨"w", "p", 5, 0, false⟩ rfl 5 9]; decide⟩

/-! ## Claim C7: collapse output durations are non-negative -/

/-- C7 counterexample: a carried interval `[10, 10]` (duration `0 ≥ 0`) and a
single (trivially ordered) sample with matching key and timestamp 9 — one
second BEFORE the carried interval's end — merge via `set_end`, producing an
interval of duration `-1 < 0`. -/
theorem c7_counterexample :
    (let carried : UsageIntervalEntity := ⟨"w", "p", 10, 0, false⟩
     let recs : List UsageRecordEntity := [⟨"w", "p", 9, false⟩]
     (0 : Int) ≤ carried.duration ∧
       List.Pairwise (fun a b : UsageRecordEntity => a.moment ≤ b.moment) recs ∧
       ¬ ∀ i ∈ collapse_records (some carried) recs, 0 ≤ i.duration) := by decide

/-- Invariant of the collapse loop: if the settled prefix has non-negative
durations and the current last interval has non-negative duration and ends no
later than every remaining record's moment, and the remaining records are
ordered, every produced interval has non-negative duration. -/
theorem collapseGo_duration_nonneg (records : List UsageRecordEntity) :
    ∀ (done : List UsageIntervalEntity) (last : Option UsageIntervalEntity),
      (∀ i ∈ done, 0 ≤ i.duration) →
      (∀ c, last = some c →
        0 ≤ c.duration ∧ ∀ r ∈ records, c.endTime ≤ r.moment) →
      List.Pairwise (fun a b => a.moment ≤ b.moment) records →
      ∀ i ∈ collapseGo done last records, 0 ≤ i.duration := by
  induction records with
  | nil =>
    intro done last hdone hlast _ i hi
    simp only [collapseGo] at hi
    rcases List.mem_append.mp hi with hi | hi
    · exact hdone i hi
    · cases last with
      | none => simp at hi
      | some c =>
        simp only [Option.toList, List.mem_singleton] at hi
        subst hi
        exact (hlast _ rfl).1
  | cons r rs ih =>
    intro done last hdone hlast hsort i hi
    obtain ⟨hr, hrs⟩ := List.pairwise_cons.mp hsort
    cases last with
    | none =>
      simp only [collapseGo] at hi
      refine ih done (some r.toInterval) hdone ?_ hrs i hi
      intro c hc
      injection hc with hc
      subst hc
      refine ⟨le_refl 0, fun x hx => ?_⟩
      have := hr x hx
      simp only [UsageRecordEntity.toInterval, UsageIntervalEntity.endTime]
      omega
    | some interval =>
      have hdur : (0 : Int) ≤ interval.duration := (hlast interval rfl).1
      have hcr : interval.start + interval.duration ≤ r.moment :=
        (hlast interval rfl).2 r (List.mem_cons_self r rs)
      have hnext : ∀ x ∈ rs, interval.start + interval.duration ≤ x.moment :=
        fun x hx => (hlast interval rfl).2 x (List.mem_cons_of_mem r hx)
      simp only [collapseGo] at hi
      by_cases h1 : interval.window_name = r.window_name
          ∧ interval.process_name = r.process_name
          ∧ interval.afk = r.afk
          ∧ r.moment - interval.endTime < MAX_MERGE_DURATION
      · rw [if_pos h1] at hi
        refine ih done (some (interval.set_end r.moment)) hdone ?_ hrs i hi
        intro c hc
        injection hc with hc
        subst hc
        constructor
        · simp only [UsageIntervalEntity.set_end]
          omega
        · intro x hx
          have := hr x hx
          simp only [UsageIntervalEntity.set_end, UsageIntervalEntity.endTime]
          omega
      · rw [if_neg h1] at hi
        have hdone' : ∀ j ∈ done ++ [interval], (0 : Int) ≤ j.duration := by
          intro j hj
          rcases List.mem_append.mp hj with hj | hj
          · exact hdone j hj
          · simp only [List.mem_singleton] at hj
            subst hj
            exact hdur
        by_cases h2 : r.moment - interval.endTime < MAX_MERGE_DURATION
        · rw [if_pos h2] at hi
          refine ih (done ++ [interval])
            (some { r.toInterval with start := interval.endTime }) hdone' ?_ hrs i hi
          intro c hc
          injection hc with hc
          subst hc
          refine ⟨le_refl 0, fun x hx => ?_⟩
          have := hr x hx
          simp only [UsageRecordEntity.toInterval, UsageIntervalEntity.endTime]
          omega
        · rw [if_neg h2] at hi
          refine ih (done ++ [interval]) (some r.toInterval) hdone' ?_ hrs i hi
          intro c hc
          injection hc with hc
          subst hc
          refine ⟨le_refl 0, fun x hx => ?_⟩
          have := hr x hx
          simp only [UsageRecordEntity.toInterval, UsageIntervalEntity.endTime]
          omega

/-- C7 (amended): every interval produced by `collapse_records` has
non-negative duration, for every ordered sample sequence and optional carried
interval that has non-negative duration AND ends no later than each sample's
timestamp (without the latter condition the claim fails, see the
counterexample). -/
theorem c7_amended (last_interval : Option UsageIntervalEntity)
    (records : List UsageRecordEntity)
    (hsort : List.Pairwise (fun a b => a.moment ≤ b.moment) records)
    (hlast : ∀ c, last_interval = some c →
      0 ≤ c.duration ∧ ∀ r ∈ records, c.endTime ≤ r.moment) :
    ∀ i ∈ collapse_records last_interval records, 0 ≤ i.duration :=
  collapseGo_duration_nonneg records [] last_interval (by simp) hlast hsort

/-- Witness for C7 (amended): carried `[0, 3]`, samples at 4 and 5; the two
produced intervals have non-negative durations. -/
theorem c7_amended_witness :
    0 ≤ (⟨"w", "p", 0, 4, false⟩ : UsageIntervalEntity).duration ∧
    0 ≤ (⟨"x", "q", 4, 0, false⟩ : UsageIntervalEntity).duration :=
  ⟨c7_amended (some ⟨"w", "p", 0, 3, false⟩)
      [⟨"w", "p", 4, false⟩, ⟨"x", "q", 5, false⟩] (by decide)
      (fun c hc => by
        injection hc with hc
        subst hc
        exact ⟨by decide, by decide⟩)
      ⟨"w", "p", 0, 4, false⟩ (by decide),
   c7_amended (some ⟨"w", "p", 0, 3, false⟩)
      [⟨"w", "p", 4, false⟩, ⟨"x", "q", 5, false⟩] (by decide)
      (fun c hc => by
        injection hc with hc
        subst hc
        exact ⟨by decide, by decide⟩)
      ⟨"x", "q", 4, 0, false⟩ (by decide)⟩

/-! ## Event pipeline saver (src/daemon/processing/local_save.rs) -/

/-- Embeds `RecordEvent` (declared in `src/daemon/storage/record_event.rs`,
which is absent from this source tree; the fields are exactly those read at
the construction site in `local_save.rs`): one collected sample message. -/
structure RecordEvent where
  window_name : String
  process_name : String
  timestamp : Int
  afk : Bool
deriving DecidableEq, Repr

/-- Embeds `LocalSaver<R>`: the record storage is abstracted by the
function `create`, standing for `RecordStorage::create_or_append_record`
over an arbitrary record-file-handle type `H`; the `date_provider` is
modelled by passing `now` to each operation. -/
structure LocalSaver (H : Type) where
  create : Int → H
  current_handle : Option H

/-- Embeds `LocalSaver::new`: starts with no cached handle. -/
def LocalSaver.new {H : Type} (create : Int → H) : LocalSaver H :=
  { create := create, current_handle := none }

/-- Embeds `LocalSaver::move_file_handle` (`get_date` stands for the
handle's `RecordFileHandle::get_date`, `flush` is the source's no-op
`Ok(())`): `take`s the cached handle and returns the updated saver together
with the handle to append to. -/
def LocalSaver.move_file_handle {H : Type} (s : LocalSaver H)
    (get_date : H → Int) (now : Int) : LocalSaver H × H :=
  let s' := { s with current_handle := none }
  match s.current_handle with
  | some file => if get_date file ≠ now then (s', s.create now) else (s', file)
  | none => (s', s.create now)

/-- Embeds `LocalSaver::process_next`: moves the file handle out, appends
the one-element batch to it, and drops it — the handle is never stored
back. Returns the updated saver and the handle that received the append. -/
def LocalSaver.process_next {H : Type} (s : LocalSaver H) (get_date : H → Int)
    (now : Int) (_message : RecordEvent) : LocalSaver H × H :=
  let r := s.move_file_handle get_date now
  (r.1, r.2)

/-- Embeds `LocalSaver::finalize`: returns whether a cached handle was found
(and flushed — the flush itself is the source's no-op `Ok(())`). -/
def LocalSaver.finalize {H : Type} (s : LocalSaver H) : Bool :=
  s.current_handle.isSome

/-- `move_file_handle` always leaves the saver with no cached handle. -/
theorem move_file_handle_clears {H : Type} (s : LocalSaver H)
    (get_date : H → Int) (now : Int) :
    (s.move_file_handle get_date now).1.current_handle = none := by
  rcases s with ⟨create, handle⟩
  cases handle
  · rfl
  · simp only [LocalSaver.move_file_handle]
    split_ifs <;> rfl

/-- The consumer loop state: folding `process_next` over any event sequence
keeps `current_handle = none`. -/
theorem foldl_process_next_clears {H : Type} (get_date : H → Int)
    (evs : List (Int × RecordEvent)) :
    ∀ s : LocalSaver H, s.current_handle = none →
      (evs.foldl (fun s e => (s.process_next get_date e.1 e.2).1) s).current_handle
        = none := by
  induction evs with
  | nil => intro s hs; simpa using hs
  | cons e rest ih =>
    intro s _
    rw [List.foldl_cons]
    exact ih _ (move_file_handle_clears s get_date e.1)

/-- C9: the saver's cached `current_handle` is `none` after construction and
stays `none` across every `process_next` (the handle `move_file_handle`
returns is never stored back), so whenever a sample is processed from such a
state the handle comes fresh from `create_or_append_record`, and `finalize`
finds no live cached handle to flush after any event sequence. -/
theorem c9_saver_never_caches (H : Type) (create : Int → H)
    (get_date : H → Int) :
    ((LocalSaver.new create).current_handle = none) ∧
    (∀ (s : LocalSaver H) (now : Int) (m : RecordEvent),
      ((s.process_next get_date now m).1).current_handle = none) ∧
    (∀ (s : LocalSaver H) (now : Int), s.current_handle = none →
      (s.move_file_handle get_date now).2 = s.create now) ∧
    (∀ evs : List (Int × RecordEvent),
      ((evs.foldl (fun s e => (s.process_next get_date e.1 e.2).1)
          (LocalSaver.new create)).current_handle = none) ∧
      ((evs.foldl (fun s e => (s.process_next get_date e.1 e.2).1)
          (LocalSaver.new create)).finalize = false)) := by
  refine ⟨rfl, ?_, ?_, ?_⟩
  · intro s now m
    exact move_file_handle_clears s get_date now
  · intro s now h
    rcases s with ⟨create', handle⟩
    dsimp only at h
    subst h
    rfl
  · intro evs
    have hnone :=
      foldl_process_next_clears get_date evs (LocalSaver.new create) rfl
    exact ⟨hnone, by simp [LocalSaver.finalize, hnone]⟩

/-- Witness for C9 at `H = Int`, `create = id`, one concrete event. -/
theorem c9_saver_never_caches_witness :
    (((LocalSaver.new (fun d : Int => d)).move_file_handle
        (fun h => h) 7).2 = 7) ∧
    ((([(7, ⟨"w", "pr", 7, false⟩)] : List (Int × RecordEvent)).foldl
        (fun s e => (s.process_next (fun h => h) e.1 e.2).1)
        (LocalSaver.new (fun d : Int => d))).finalize = false) :=
  ⟨(c9_saver_never_caches Int (fun d => d) (fun h => h)).2.2.1
      (LocalSaver.new (fun d : Int => d)) 7 rfl,
   ((c9_saver_never_caches Int (fun d => d) (fun h => h)).2.2.2
      [(7, ⟨"w", "pr", 7, false⟩)]).2⟩

/-! ## JSON line format (serde_json serialization of `UsageIntervalEntity`) -/

/-- JSON string escaping as produced by serde_json, restricted to the escapes
that can occur in the verified inputs (`\u00XX` escapes for other control
characters are not modelled). -/
def escapeChar (c : Char) : List Char :=
  if c = '"' then ['\\', '"']
  else if c = '\\' then ['\\', '\\']
  else if c = '\n' then ['\\', 'n']
  else if c = '\r' then ['\\', 'r']
  else if c = '\t' then ['\\', 't']
  else [c]

def escapeString (s : String) : List Char :=
  (s.data.map escapeChar).flatten

/-- Serialization of one `UsageIntervalEntity` as written by
`serde_json::to_writer`: fields in declaration order, `start` through
`chrono::serde::ts_seconds`, `duration` through its custom serializer
(`num_seconds`). -/
def serializeInterval (e : UsageIntervalEntity) : List Char :=
  ('\x7b' :: "\"window_name\":\"".data) ++ escapeString e.window_name ++
    "\",\"process_name\":\"".data ++ escapeString e.process_name ++
    "\",\"start\":".data ++ (toString e.start).data ++
    ",\"duration\":".data ++ (toString e.duration).data ++
    ",\"afk\":".data ++ (if e.afk then "true".data else "false".data) ++
    ['\x7d']

/-- The JSON scalar values appearing in a serialized interval. -/
inductive JsonValue
  | jstr (s : String)
  | jint (n : Int)
  | jbool (b : Bool)
deriving DecidableEq, Repr

def skipWs : List Char → List Char
  | c :: rest =>
    if c = ' ' ∨ c = '\t' ∨ c = '\n' ∨ c = '\r' then skipWs rest else c :: rest
  | [] => []

/-- Parses a JSON string body after the opening quote; returns the decoded
characters and the input following the closing quote. -/
def parseStringBody : List Char → Option (List Char × List Char)
  | '"' :: rest => some ([], rest)
  | '\\' :: e :: rest =>
    (match e with
      | '"' => some '"'
      | '\\' => some '\\'
      | '/' => some '/'
      | 'n' => some '\n'
      | 't' => some '\t'
      | 'r' => some '\r'
      | _ => none).bind fun c =>
        (parseStringBody rest).map fun (sr : List Char × List Char) =>
          (c :: sr.1, sr.2)
  | c :: rest =>
    if c = '\\' then none
    else (parseStringBody rest).map fun (sr : List Char × List Char) =>
      (c :: sr.1, sr.2)
  | [] => none

def parseDigits (acc : Nat) : List Char → Nat × List Char
  | c :: rest =>
    if c.isDigit then parseDigits (acc * 10 + (c.toNat - 48)) rest
    else (acc, c :: rest)
  | [] => (acc, [])

def parseIntChars : List Char → Option (Int × List Char)
  | '-' :: c :: rest =>
    if c.isDigit then
      let nr := parseDigits (c.toNat - 48) rest
      some (-(nr.1 : Int), nr.2)
    else none
  | c :: rest =>
    if c = '-' then none
    else if c.isDigit then
      let nr := parseDigits (c.toNat - 48) rest
      some ((nr.1 : Int), nr.2)
    else none
  | [] => none

def parseJsonValue (input : List Char) : Option (JsonValue × List Char) :=
  match skipWs input with
  | '"' :: rest =>
    (parseStringBody rest).map fun sr => (JsonValue.jstr (String.mk sr.1), sr.2)
  | 't' :: 'r' :: 'u' :: 'e' :: rest => some (JsonValue.jbool true, rest)
  | 'f' :: 'a' :: 'l' :: 's' :: 'e' :: rest => some (JsonValue.jbool false, rest)
  | other => (parseIntChars other).map fun nr => (JsonValue.jint nr.1, nr.2)

def parseMember (input : List Char) : Option ((String × JsonValue) × List Char) :=
  match skipWs input with
  | '"' :: rest =>
    (parseStringBody rest).bind fun kr =>
      match skipWs kr.2 with
      | ':' :: r2 =>
        (parseJsonValue r2).map fun vr => ((String.mk kr.1, vr.1), vr.2)
      | _ => none
  | _ => none

/-- Parses `member (, member)* }`; the fuel bounds the member count (each
member consumes at least one character). -/
def parseMembers : Nat → List Char → Option (List (String × JsonValue) × List Char)
  | 0, _ => none
  | fuel + 1, input =>
    (parseMember input).bind fun kvr =>
      match skipWs kvr.2 with
      | ',' :: r2 =>
        (parseMembers fuel r2).map fun msr => (kvr.1 :: msr.1, msr.2)
      | c :: r2 => if c = '\x7d' then some ([kvr.1], r2) else none
      | [] => none

def parseObjectMembers (input : List Char) :
    Option (List (String × JsonValue) × List Char) :=
  match skipWs input with
  | c :: rest =>
    if c = '\x7b' then
      match skipWs rest with
      | c2 :: r2 =>
        if c2 = '\x7d' then some ([], r2)
        else parseMembers (rest.length + 1) (c2 :: r2)
      | [] => none
    else none
  | [] => none

/-- Field extraction mirroring serde's derived `Deserialize`: every declared
field except `afk` is required, duplicate fields are an error, unknown fields
are ignored, and `#[serde(default)]` makes a missing `afk` equal `false`. -/
def buildInterval (ms : List (String × JsonValue)) : Option UsageIntervalEntity :=
  if (ms.map Prod.fst).Nodup then
    match ms.lookup "window_name", ms.lookup "process_name",
        ms.lookup "start", ms.lookup "duration", ms.lookup "afk" with
    | some (.jstr w), some (.jstr p), some (.jint s), some (.jint d), afkv =>
      match afkv with
      | none => some ⟨w, p, s, d, false⟩
      | some (.jbool b) => some ⟨w, p, s, d, b⟩
      | some _ => none
    | _, _, _, _, _ => none
  else none

/-- Embeds `serde_json::from_str::<UsageIntervalEntity>` for the JSON object
layout this program reads and writes (string escapes are limited to the
single-character escapes above; `\u` escapes and number-grammar corner cases
are not modelled). Trailing whitespace is allowed, anything else after the
object is an error; any malformed input yields `none`. -/
def parseIntervalChars (input : List Char) : Option UsageIntervalEntity :=
  (parseObjectMembers input).bind fun msr =>
    match skipWs msr.2 with
    | [] => buildInterval msr.1
    | _ :: _ => none

def parseIntervalLine (s : String) : Option UsageIntervalEntity :=
  parseIntervalChars s.data

example :
    parseIntervalLine (String.mk (serializeInterval ⟨"w", "p", 100, 5, true⟩)) =
      some ⟨"w", "p", 100, 5, true⟩ := by decide

example :  -- missing afk defaults to false; negative start parses
    parseIntervalLine
      "\x7b\"window_name\":\"a b\",\"process_name\":\"/usr/bin/x\",\"start\":-7,\"duration\":0\x7d" =
      some ⟨"a b", "/usr/bin/x", -7, 0, false⟩ := by decide

example : parseIntervalLine "garbage" = none := by decide

example :  -- a torn prefix of a record fails to parse
    parseIntervalLine "\x7b\"window_name\":\"w\",\"proc" = none := by decide

/-! ## Record file write path (src/fs/operations.rs, record_storage.rs) -/

/-- Index of the last `'\n'` in the list, if any. -/
def lastNewlinePos : List Char → Option Nat
  | [] => none
  | c :: rest =>
    match lastNewlinePos rest with
    | some i => some (i + 1)
    | none => if c = '\n' then some 0 else none

/-- Embeds `seek_line_backwards`: starting from the end of the file the
cursor lands just after the last `'\n'` that is strictly before the final
byte (the final byte is skipped — `need_to_skip` — so a trailing newline
does not terminate the scan), or at position 0. -/
def lastLineStart (file : List Char) : Nat :=
  match lastNewlinePos file.dropLast with
  | some i => i + 1
  | none => 0

/-- Embeds `UsageIntervalRecordFile::append_with_file` on a file given as its
byte content: seek to the end, find the start of the physical last line, read
it, parse it as the carried interval (empty or corrupted line → `none`),
collapse with the new records, serialize the collapsed intervals
newline-terminated, and write the buffer at the last-line start position.
The write overwrites in place and the source performs NO truncation: bytes
of the old content beyond the written range survive in the file. -/
def append_with_file (file : List Char) (usage_record : List UsageRecordEntity) :
    List Char :=
  let p := lastLineStart file
  let last_line := file.drop p
  let last_interval : Option UsageIntervalEntity :=
    if last_line.isEmpty then none
    else parseIntervalChars last_line
  let collapsed := collapse_records last_interval usage_record
  let buffer := (collapsed.map (fun i => serializeInterval i ++ ['\n'])).flatten
  file.take p ++ buffer ++ file.drop (p + buffer.length)

example :  -- appending to an empty file writes exactly the collapsed records
    append_with_file [] [⟨"w", "p", 5, false⟩] =
      serializeInterval ⟨"w", "p", 5, 0, false⟩ ++ ['\n'] := by decide

example :  -- a same-key append rewrites the last line in place
    append_with_file
      (serializeInterval ⟨"w", "p", 5, 0, false⟩ ++ ['\n']) [⟨"w", "p", 6, false⟩] =
      serializeInterval ⟨"w", "p", 5, 1, false⟩ ++ ['\n'] := by decide

/-! ## Claim C1: append must truncate after a shrinking rewrite -/

/-- A record file left with a long unparsable last line (e.g. a torn write):
120 bytes, no newline. -/
def c1_file : List Char := List.replicate 120 'x'

def c1_records : List UsageRecordEntity := [⟨"w", "p", 5, false⟩]

/-- The newline-delimited serialization of the collapsed interval sequence
for `c1_file`/`c1_records` — what C1 says the file should contain (after the
rewound write position, which is 0 here) and nothing beyond. -/
def c1_expected : List Char :=
  ((collapse_records none c1_records).map
    (fun i => serializeInterval i ++ ['\n'])).flatten

/-- C1 fails on the code (`code_bug`): on a file whose corrupted last line is
longer than the replacement content, `append_with_file` leaves the old
line's stale trailing bytes after the newly written records — the source
never truncates, though the spec calls the truncation a required safeguard.
The corrupted line parses to no carried interval, the rewrite position is 0,
the written buffer is shorter than the file, and the result is the expected
content followed by a non-empty stale suffix. -/
theorem c1_truncation_missing :
    lastLineStart c1_file = 0 ∧
    parseIntervalChars c1_file = none ∧
    c1_expected.length < c1_file.length ∧
    append_with_file c1_file c1_records =
      c1_expected ++ c1_file.drop c1_expected.length ∧
    c1_file.drop c1_expected.length ≠ [] ∧
    append_with_file c1_file c1_records ≠ c1_expected := by decide

/-! ## Record file read path (RecordStorageImpl::get_all_inner) -/

/-- Embeds the read loop of `RecordStorageImpl::get_all_inner`: parse each
line, keep successes in order, skip (only warn on) failures. The file is
given as its list of lines; `none` models an absent file
(`ErrorKind::NotFound`), which the source maps to `Ok(vec![])`. The
`Except` mirrors the source's `Result`; parse failures produce no error. -/
def get_all_inner (file : Option (List String)) :
    Except String (List UsageIntervalEntity) :=
  match file with
  | none => Except.ok []
  | some lines => Except.ok (lines.filterMap parseIntervalLine)

/-- C5: a file of well-formed interval lines followed by one corrupted
trailing line reads back as exactly the well-formed intervals, in file
order, with no error; an absent file reads as the empty list, not an
error. -/
theorem c5_read_skips_corrupt_tail (goodLines : List String) (corrupt : String)
    (hgood : ∀ l ∈ goodLines, (parseIntervalLine l).isSome = true)
    (hcorrupt : parseIntervalLine corrupt = none) :
    get_all_inner (some (goodLines ++ [corrupt])) =
      Except.ok (goodLines.filterMap parseIntervalLine) ∧
    (goodLines.filterMap parseIntervalLine).length = goodLines.length ∧
    get_all_inner none = Except.ok [] := by
  refine ⟨?_, ?_, rfl⟩
  · simp [get_all_inner, List.filterMap_append, hcorrupt]
  · induction goodLines with
    | nil => rfl
    | cons a as ih =>
      obtain ⟨v, hv⟩ := Option.isSome_iff_exists.mp (hgood a (List.mem_cons_self a as))
      simp [List.filterMap_cons, hv,
        ih (fun l hl => hgood l (List.mem_cons_of_mem a hl))]

/-- Witness for C5: two well-formed lines (one with the backward-compatible
missing `afk`), then a torn trailing line. -/
theorem c5_read_skips_corrupt_tail_witness :
    get_all_inner (some
      (["\x7b\"window_name\":\"w\",\"process_name\":\"p\",\"start\":100,\"duration\":5,\"afk\":true\x7d",
        "\x7b\"window_name\":\"v\",\"process_name\":\"q\",\"start\":105,\"duration\":0\x7d"] ++
       ["\x7b\"window_name\":\"w\",\"proc"])) =
      Except.ok
        (["\x7b\"window_name\":\"w\",\"process_name\":\"p\",\"start\":100,\"duration\":5,\"afk\":true\x7d",
          "\x7b\"window_name\":\"v\",\"process_name\":\"q\",\"start\":105,\"duration\":0\x7d"].filterMap
          parseIntervalLine) ∧
    (["\x7b\"window_name\":\"w\",\"process_name\":\"p\",\"start\":100,\"duration\":5,\"afk\":true\x7d",
      "\x7b\"window_name\":\"v\",\"process_name\":\"q\",\"start\":105,\"duration\":0\x7d"].filterMap
      parseIntervalLine).length = 2 ∧
    get_all_inner none = Except.ok [] :=
  c5_read_skips_corrupt_tail
    ["\x7b\"window_name\":\"w\",\"process_name\":\"p\",\"start\":100,\"duration\":5,\"afk\":true\x7d",
     "\x7b\"window_name\":\"v\",\"process_name\":\"q\",\"start\":105,\"duration\":0\x7d"]
    "\x7b\"window_name\":\"w\",\"proc" (by decide) (by decide)

/-! ## Usage analyzer (src/cli/output/analysis.rs, src/cli/timeline.rs) -/

/-- Embeds `ProcessUsage`. -/
structure ProcessUsage where
  process_name : String
  duration : Int
deriving DecidableEq, Repr

/-- Splitting on a separator character (the embedding of path-component
splitting; `String.splitOn` itself does not reduce in the kernel). -/
def splitOnChar (sep : Char) : List Char → List (List Char)
  | [] => [[]]
  | c :: rest =>
    match splitOnChar sep rest with
    | h :: t => if c = sep then [] :: h :: t else (c :: h) :: t
    | [] => if c = sep then [[], []] else [[c]]

/-- Embeds `clean_process_name` (src/cli/timeline.rs): reduce an executable
path to its final path component (`PathBuf::file_name`, which skips empty
and `.` components and yields `None` for `..`-terminated or rootless-empty
paths), falling back to the full string. -/
def clean_process_name (value : String) : String :=
  let comps := (splitOnChar (Char.ofNat 47) value.data).filter
    (fun c => decide (c ≠ [] ∧ c ≠ [Char.ofNat 46]))
  match comps.getLast? with
  | some t => if t = [Char.ofNat 46, Char.ofNat 46] then value
    else String.mk t
  | none => value

example : clean_process_name "/usr/bin/firefox" = "firefox" := by decide
example : clean_process_name "firefox" = "firefox" := by decide

/-- The `map.entry(key).or_insert_with(|| ProcessUsage::new(name))` followed
by `duration += d` of the analyzer loop. The `HashMap<String, ProcessUsage>`
is embedded as an insertion-ordered association list (the iteration order of
the Rust `HashMap` is unspecified; no verified claim depends on it). -/
def addUsage (map : List (String × ProcessUsage)) (key : String)
    (process_name : String) (d : Int) : List (String × ProcessUsage) :=
  match map with
  | [] => [(key, ⟨process_name, 0 + d⟩)]
  | (k, u) :: rest =>
    if k = key then (k, ⟨u.process_name, u.duration + d⟩) :: rest
    else (k, u) :: addUsage rest key process_name d

/-- `HashMap::insert`: replaces the value under an existing key, otherwise
adds the binding. -/
def insertUsage (map : List (String × ProcessUsage)) (key : String)
    (u : ProcessUsage) : List (String × ProcessUsage) :=
  match map with
  | [] => [(key, u)]
  | (k, v) :: rest =>
    if k = key then (k, u) :: rest else (k, v) :: insertUsage rest key u

/-- One iteration of the `analyze_processes` accumulation loop over
`(map, inactive, interval_sum)`. -/
def analyzeStep (include_afk : Bool)
    (st : List (String × ProcessUsage) × ProcessUsage × Int)
    (v : UsageIntervalEntity) :
    List (String × ProcessUsage) × ProcessUsage × Int :=
  let interval_sum := st.2.2 + v.duration
  if v.afk ∧ ¬ include_afk then
    (st.1, ⟨st.2.1.process_name, st.2.1.duration + v.duration⟩, interval_sum)
  else
    (addUsage st.1 (clean_process_name v.process_name) v.process_name
        v.duration,
      st.2.1, interval_sum)

/-- The full accumulation loop of `analyze_processes`, from the initial
state (empty map, `ProcessUsage::new("Inactive")`, zero sum). -/
def analyzeAccum (intervals : List UsageIntervalEntity) (include_afk : Bool) :
    List (String × ProcessUsage) × ProcessUsage × Int :=
  intervals.foldl (analyzeStep include_afk) ([], ⟨"Inactive", 0⟩, 0)

/-- The aggregated entries of `analyze_processes` before the percentage
filter: the map after the loop with the `Inactive` entry inserted when its
accumulated duration is nonzero. -/
def aggregatedEntries (intervals : List UsageIntervalEntity)
    (include_afk : Bool) : List ProcessUsage :=
  let st := analyzeAccum intervals include_afk
  (if st.2.1.duration ≠ 0 then insertUsage st.1 "Inactive" st.2.1
   else st.1).map Prod.snd

/-- Stable ascending insertion: an element is placed before the first
element that is not strictly smaller, so equal elements keep their original
order. -/
def insertAsc {α : Type} (le : α → α → Bool) (a : α) : List α → List α
  | [] => [a]
  | b :: rest =>
    if le b a ∧ ¬ le a b then b :: insertAsc le a rest else a :: b :: rest

/-- Stable ascending sort. A stable sort under a total preorder comparator
is unique as a function, so this computes exactly the result of the
source's stable `sort_by(|a, b| a.duration.cmp(&b.duration))`. -/
def sortStable {α : Type} (le : α → α → Bool) (l : List α) : List α :=
  l.foldr (insertAsc le) []

theorem mem_insertAsc {α : Type} (le : α → α → Bool) (a x : α) :
    ∀ l : List α, x ∈ insertAsc le a l ↔ x = a ∨ x ∈ l := by
  intro l
  induction l with
  | nil => simp [insertAsc]
  | cons b rest ih =>
    dsimp only [insertAsc]
    split_ifs
    · simp only [List.mem_cons, ih]
      try tauto
    · simp only [List.mem_cons]
      try tauto

theorem mem_sortStable {α : Type} (le : α → α → Bool) (x : α) :
    ∀ l : List α, x ∈ sortStable le l ↔ x ∈ l := by
  intro l
  induction l with
  | nil => simp [sortStable]
  | cons b rest ih =>
    simp only [sortStable] at ih ⊢
    rw [List.foldr_cons, mem_insertAsc]
    simp [ih]

/-- Total duration of a list of intervals (AFK included). -/
def interval_sum_of (intervals : List UsageIntervalEntity) : Int :=
  (intervals.map (fun v => v.duration)).sum

/-- Embeds `analyze_processes`: aggregates per-process durations — keyed by
cleaned process name, AFK intervals folded into `Inactive` unless
`include_afk` — computes `interval_sum`, drops every aggregated entry whose
duration is at or below `interval_sum * min_percentage / 100`, and sorts by
descending duration (stable ascending sort, then reverse, as the source's
`sort_by` + `reverse`). `min_percentage` is the `*min_percentage as i32`
truncation of the f64 percentage; the `/ 100` is chrono's `Div<i32>` for
`Duration`, which at whole-second sums equals flooring division (chrono
divides the carry at nanosecond precision and `10^9 / 100` is exact). -/
def analyze_processes (intervals : List UsageIntervalEntity)
    (min_percentage : Nat) (include_afk : Bool) : List ProcessUsage × Int :=
  let st := analyzeAccum intervals include_afk
  let interval_sum := st.2.2
  let threshold := interval_sum * (min_percentage : Int) / 100
  let usages := (aggregatedEntries intervals include_afk).filter
    (fun u => decide (u.duration > threshold))
  ((sortStable (fun a b => decide (a.duration ≤ b.duration)) usages).reverse,
    interval_sum)

example :  -- total elapsed 100 s, floor 10 %: the 10 s entry is excluded,
           -- the 11 s entry is included
    analyze_processes
      [⟨"w", "a", 0, 10, false⟩, ⟨"w", "b", 10, 11, false⟩,
       ⟨"w", "c", 21, 79, false⟩] 10 true =
      ([⟨"c", 79⟩, ⟨"b", 11⟩], 100) := by decide

/-- The loop's third component accumulates the total duration, AFK samples
included. -/
theorem analyzeAccum_sum (include_afk : Bool)
    (intervals : List UsageIntervalEntity) :
    (analyzeAccum intervals include_afk).2.2 = interval_sum_of intervals := by
  have key : ∀ (l : List UsageIntervalEntity)
      (st : List (String × ProcessUsage) × ProcessUsage × Int),
      (l.foldl (analyzeStep include_afk) st).2.2 =
        st.2.2 + interval_sum_of l := by
    intro l
    induction l with
    | nil => intro st; simp [interval_sum_of]
    | cons v rest ih =>
      intro st
      rw [List.foldl_cons, ih]
      have hstep : (analyzeStep include_afk st v).2.2 = st.2.2 + v.duration := by
        dsimp only [analyzeStep]
        split_ifs <;> rfl
      rw [hstep]
      simp [interval_sum_of]
      ring
  rw [analyzeAccum, key]
  simp

/-- C6: an aggregated entry is dropped exactly when its accumulated duration
is at or below `min_percentage * interval_sum / 100` — the threshold is
exclusive — where `interval_sum` is the total duration of all intervals in
the bucket, AFK time included. (`100 * duration > min * interval_sum` is the
exact form of `duration > interval_sum * min / 100`.) -/
theorem c6_percentage_filter (intervals : List UsageIntervalEntity)
    (min_percentage : Nat) (include_afk : Bool) (u : ProcessUsage) :
    ((analyze_processes intervals min_percentage include_afk).2 =
      interval_sum_of intervals) ∧
    (u ∈ (analyze_processes intervals min_percentage include_afk).1 ↔
      (u ∈ aggregatedEntries intervals include_afk ∧
        100 * u.duration > (min_percentage : Int) * interval_sum_of intervals)) := by
  constructor
  · exact analyzeAccum_sum include_afk intervals
  · rw [analyze_processes]
    simp only [List.mem_reverse, mem_sortStable, List.mem_filter,
      decide_eq_true_eq]
    rw [analyzeAccum_sum include_afk intervals]
    constructor
    · rintro ⟨hmem, hgt⟩
      refine ⟨hmem, ?_⟩
      generalize hx : interval_sum_of intervals = x at *
      generalize hy : u.duration = y at *
      generalize hm : (min_percentage : Int) = m at *
      have hm0 : 0 ≤ m := by rw [← hm]; exact Int.natCast_nonneg _
      have : x * m = m * x := by ring
      rw [this] at hgt
      generalize hz : m * x = z at *
      omega
    · rintro ⟨hmem, hgt⟩
      refine ⟨hmem, ?_⟩
      generalize hx : interval_sum_of intervals = x at *
      generalize hy : u.duration = y at *
      generalize hm : (min_percentage : Int) = m at *
      have : x * m = m * x := by ring
      rw [this]
      generalize hz : m * x = z at *
      omega

/-! ## Sliding bucket grouper (src/cli/output/sliding_grouping.rs) -/

/-- Embeds `TimeOption`. -/
inductive TimeOption
  | Weeks
  | Days
  | Hours
  | Minutes
  | Seconds
deriving DecidableEq, Repr

/-- Embeds `SlidingInterval` (a bucket width: count of a time unit). -/
structure SlidingInterval where
  duration : Nat
  time : TimeOption
deriving DecidableEq, Repr

/-- Embeds `SlidingInterval::new_opt` with its sanity limits. -/
def SlidingInterval.new_opt (duration : Nat) (time : TimeOption) :
    Option SlidingInterval :=
  match time with
  | .Hours => if duration < 24 then some ⟨duration, time⟩ else none
  | .Minutes => if duration < 60 then some ⟨duration, time⟩ else none
  | .Seconds => if duration < 60 then some ⟨duration, time⟩ else none
  | .Days => if duration < 7 then some ⟨duration, time⟩ else none
  | .Weeks => if duration < 2 then some ⟨duration, time⟩ else none

/-- Embeds `SlidingInterval::as_duration`, in seconds. -/
def SlidingInterval.as_duration (s : SlidingInterval) : Int :=
  match s.time with
  | .Hours => 3600 * (s.duration : Int)
  | .Minutes => 60 * (s.duration : Int)
  | .Seconds => (s.duration : Int)
  | .Weeks => 604800 * (s.duration : Int)
  | .Days => 86400 * (s.duration : Int)

/-- Embeds `clean_time_start` for the UTC reference timezone on whole-second
instants: rounds the rough start down to the nearest clean boundary of the
scale. `with_hour/minute/second` keep the already-zeroed smaller fields of
`lower_bound`; `beginning_of_week` (the `now` crate) starts weeks on Monday,
and the epoch 1970-01-01 was a Thursday. (The `% scale.duration()` panics in
Rust when the width is 0; a zero width is not modelled.) -/
def clean_time_start (rough_start : Int) (scale : SlidingInterval) : Int :=
  match scale.time with
  | .Weeks => rough_start - (rough_start + 3 * 86400).emod 604800
  | .Days => rough_start - rough_start.emod 86400
  | .Hours =>
    let lower_bound := rough_start - rough_start.emod 86400
    let remainder :=
      ((rough_start - lower_bound) / 3600).emod (scale.duration : Int)
    lower_bound + 3600 * ((rough_start - lower_bound) / 3600 - remainder)
  | .Minutes =>
    let lower_bound := rough_start - rough_start.emod 3600
    let remainder :=
      ((rough_start - lower_bound) / 60).emod (scale.duration : Int)
    lower_bound + 60 * ((rough_start - lower_bound) / 60 - remainder)
  | .Seconds =>
    let lower_bound := rough_start - rough_start.emod 60
    let remainder := (rough_start - lower_bound).emod (scale.duration : Int)
    lower_bound + (rough_start - lower_bound - remainder)

/-- `DateTime::date_naive` for UTC on whole-second instants: the calendar
day as its number since the epoch. -/
def date_naive (t : Int) : Int := t / 86400

/-- The `move_time` closure of `sliding_interval_grouping` (UTC reference
timezone): advance one bucket width, clipping the bucket end to midnight
(`local_end.with_time(NaiveTime::MIN)`) when the naive advance would end on
a different calendar day. -/
def move_time (duration : Int) (previous_end : Int) : Int × Int :=
  let start := previous_end
  let endv := start + duration
  if date_naive start ≠ date_naive endv then (start, date_naive endv * 86400)
  else (start, endv)

/-- Embeds `GroupResult<T>`. -/
inductive GroupResult (T : Type)
  | End : GroupResult T
  | Values (backlog : Option UsageIntervalEntity) (data : Option T) :
      GroupResult T
deriving DecidableEq, Repr

/-- The collection loop of `sliding_group_next` over the bucket
`[start_, endv)`: skip intervals ending before the bucket start, split at
the bucket end, carry the part after the split as the next backlog; returns
the group result and the unconsumed remainder of the stream. The
`(none, none)` case is the source's `unreachable!()`. -/
def sliding_group_next_go {T : Type} (analyzer : List UsageIntervalEntity → T)
    (start_ endv : Int) (collected : List UsageIntervalEntity) :
    List UsageIntervalEntity → GroupResult T × List UsageIntervalEntity
  | [] =>
    if collected.isEmpty then (GroupResult.End, [])
    else (GroupResult.Values none (some (analyzer collected)), [])
  | v :: rest =>
    if v.endTime < start_ then
      sliding_group_next_go analyzer start_ endv collected rest
    else
      match v.split_by endv with
      | (none, none) => (GroupResult.End, rest)
      | (none, some afterv) =>
        (GroupResult.Values (some afterv) (some (analyzer collected)), rest)
      | (some beforev, some afterv) =>
        (GroupResult.Values (some afterv)
          (some (analyzer (collected ++ [beforev]))), rest)
      | (some beforev, none) =>
        sliding_group_next_go analyzer start_ endv (collected ++ [beforev]) rest

/-- Embeds `sliding_group_next`: `take_or_poll_ok` consumes the backlog
first, then polls the stream. -/
def sliding_group_next {T : Type} (analyzer : List UsageIntervalEntity → T)
    (backlog : Option UsageIntervalEntity)
    (stream : List UsageIntervalEntity) (start_ endv : Int) :
    GroupResult T × List UsageIntervalEntity :=
  sliding_group_next_go analyzer start_ endv [] (backlog.toList ++ stream)

/-- The `while let GroupResult::Values` loop of `sliding_interval_grouping`:
emit `(collapse_start, data)` per bucket and advance through `move_time`.
The source's loop terminates whenever the bucket width is positive; `fuel`
bounds the iteration count in this embedding (once the loop hits
`GroupResult::End` any larger fuel yields the same output). -/
def slidingLoop {T : Type} (analyzer : List UsageIntervalEntity → T)
    (duration : Int) :
    Nat → Option UsageIntervalEntity → List UsageIntervalEntity → Int → Int →
      List (Int × Option T) → List (Int × Option T)
  | 0, _, _, _, _, collected => collected
  | fuel + 1, backlog, stream, collapse_start, collapse_end, collected =>
    match sliding_group_next analyzer backlog stream collapse_start
        collapse_end with
    | (GroupResult.End, _) => collected
    | (GroupResult.Values updated_backlog data, rest) =>
      let moved := move_time duration collapse_end
      slidingLoop analyzer duration fuel updated_backlog rest moved.1 moved.2
        (collected ++ [(collapse_start, data)])

/-- Embeds `sliding_interval_grouping` over a finite, already-materialized,
error-free stream, with the UTC reference timezone: an empty stream yields
no buckets; otherwise bucketing starts at the cleaned first-interval start. -/
def sliding_interval_grouping {T : Type} (fuel : Nat)
    (values : List UsageIntervalEntity) (scale : SlidingInterval)
    (analyzer : List UsageIntervalEntity → T) : List (Int × Option T) :=
  match values with
  | [] => []
  | first :: rest =>
    let collapse_start := clean_time_start first.start scale
    let duration := scale.as_duration
    slidingLoop analyzer duration fuel (some first) rest collapse_start
      (collapse_start + duration) []

/-- Total duration in a list attributed to one process name. -/
def processDuration (name : String) (l : List UsageIntervalEntity) : Int :=
  interval_sum_of (l.filter (fun v => v.process_name == name))

/-! ## Claim C8: ten alternating 5-second intervals, 30-second buckets -/

/-- 2024-04-05 12:00:00 UTC — the clean half-minute boundary of the
reference grouping test. -/
def c8_t0 : Int := 1712318400

def c8_scale : SlidingInterval := ⟨30, TimeOption.Seconds⟩

/-- Ten alternating 5-second intervals of `process a` / `process b`
starting at `c8_t0`. -/
def c8_stream : List UsageIntervalEntity :=
  (List.range 10).map fun i =>
    ⟨if i % 2 = 0 then "entity a" else "entity b",
     if i % 2 = 0 then "process a" else "process b",
     c8_t0 + 5 * (i : Int), 5, false⟩

/-- C8: a 30-second bucket width over the ten alternating 5-second
intervals starting at a clean half-minute boundary yields exactly two
buckets: the first starting at the boundary with 30 s collected, split
15 s / 15 s between the two processes, the second with the remaining 20 s.
(The width 30 passes the `new_opt` validation; fuel 8 is ample — the loop
ends at its third iteration.) -/
theorem c8_alternating_grouping :
    SlidingInterval.new_opt 30 TimeOption.Seconds = some c8_scale ∧
    (c8_t0.emod 30 = 0) ∧
    (let out := sliding_interval_grouping 8 c8_stream c8_scale (fun l => l)
     out.map Prod.fst = [c8_t0, c8_t0 + 30] ∧
     out.map (fun b => b.2.map interval_sum_of) = [some 30, some 20] ∧
     out.map (fun b => b.2.map (processDuration "process a")) =
       [some 15, some 10] ∧
     out.map (fun b => b.2.map (processDuration "process b")) =
       [some 15, some 10]) := by decide

end Whatawhat
